import Mathlib

/-!
Shallow embedding of the core behaviors of the LightGBM sources under
verification: the serial tree learner (src/treelearner/serial_tree_learner.cpp),
dataset loading and binary serialization (src/io/dataset.cpp), the socket
linker construction (src/network/linkers_socket.cpp) and the NDCG metric
(src/metric/rank_metric.hpp).  C++ machine integers are modelled as Int/Nat,
floating-point quantities as Rat, fallible paths (Log::Fatal, undefined
behavior) as Option.  Definitions are translated from the sources; a few
helpers whose bodies live in headers outside the provided sources are
modelled from the specification and say so in their doc comments.
-/

namespace LightGBM

/-! ### Histograms: SerialTreeLearner::FindBestThresholds
(serial_tree_learner.cpp lines 342-406) -/

/-- HistogramBinEntry (spec 3): per-bin gradient sum, hessian sum, and count.
The C++ fields are double, double, int; they are modelled as Rat, Rat, Int. -/
structure HistogramBinEntry where
  sum_gradients : Rat
  sum_hessians : Rat
  cnt : Int
deriving DecidableEq

/-- One data row of a leaf as seen by one feature: the row's bin code for the
feature and the row's gradient and hessian. -/
structure BinnedRow where
  bin : Nat
  gradient : Rat
  hessian : Rat
deriving DecidableEq

/-- Modelled from the spec: FeatureHistogram::Construct (feature_histogram.hpp
is not under src/) builds the histogram of one feature from the rows of one
leaf, accumulating (gradient, hessian, 1) at each row's bin (spec 4.7 step b). -/
def constructHist (rows : List BinnedRow) (b : Nat) : HistogramBinEntry :=
  rows.foldl
    (fun e r =>
      if r.bin = b then
        { sum_gradients := e.sum_gradients + r.gradient,
          sum_hessians := e.sum_hessians + r.hessian,
          cnt := e.cnt + 1 }
      else e)
    { sum_gradients := 0, sum_hessians := 0, cnt := 0 }

/-- Modelled from the spec: FeatureHistogram::Subtract (feature_histogram.hpp
is not under src/) replaces the receiver - the larger child's array, which
after HistogramPool::Move holds the parent's bins - by the per-bin difference
parent minus smaller (spec 4.5: "the larger child's histogram is then obtained
by per-bin subtraction parent - smaller"). -/
def subtractHist (parent smaller : Nat → HistogramBinEntry) (b : Nat) : HistogramBinEntry :=
  { sum_gradients := (parent b).sum_gradients - (smaller b).sum_gradients,
    sum_hessians := (parent b).sum_hessians - (smaller b).sum_hessians,
    cnt := (parent b).cnt - (smaller b).cnt }

/-- From SerialTreeLearner::FindBestThresholds (serial_tree_learner.cpp
342-406): the histogram data flow for one feature of one split iteration.
Returns none when the loop body skips the feature (feature not in the sampled
subset, line 346, or cached parent histogram not splittable, lines 348-351);
otherwise returns the (smaller, larger) leaf histograms: the smaller leaf's
histogram is constructed from its rows (lines 353-371), and the larger leaf's
is the subtraction from the cached parent when available (line 381), else
constructed from the larger leaf's rows (lines 383-400). -/
def findBestThresholdsHists (isFeatureUsed parentCached parentSplittable : Bool)
    (parentHist : Nat → HistogramBinEntry) (smallerRows largerRows : List BinnedRow) :
    Option ((Nat → HistogramBinEntry) × (Nat → HistogramBinEntry)) :=
  if !isFeatureUsed then none
  else if parentCached && !parentSplittable then none
  else
    let smaller := constructHist smallerRows
    let larger :=
      if parentCached then subtractHist parentHist smaller else constructHist largerRows
    some (smaller, larger)

/-! ### The split loop: SerialTreeLearner::Train
(serial_tree_learner.cpp lines 119-153) -/

/-- From SerialTreeLearner::Train (serial_tree_learner.cpp 131-151): the split
loop, with the internals of one iteration abstracted into the oracle bestGain,
where bestGain k is the gain of the best split over all tracked leaves at
iteration k (ArrayArgs::ArgMax over best_split_per_leaf_, line 140).  Returns
the number of splits applied starting from iteration number split with fuel
loop iterations remaining: the loop breaks as soon as the best gain is <= 0
(line 144), otherwise SerialTreeLearner::Split is applied and the tree gains
one leaf. -/
def trainSplitsFrom (bestGain : Nat → Rat) : Nat → Nat → Nat
  | _, 0 => 0
  | split, fuel + 1 =>
    if bestGain split ≤ 0 then 0 else trainSplitsFrom bestGain (split + 1) fuel + 1

/-- Number of splits applied by one SerialTreeLearner::Train call: the loop
runs for split = 0 .. num_leaves - 2 (line 131). -/
def trainNumSplits (numLeaves : Nat) (bestGain : Nat → Rat) : Nat :=
  trainSplitsFrom bestGain 0 (numLeaves - 1)

/-- Number of leaves of the returned tree: the tree starts with the single
root leaf (line 124, new Tree) and each applied split adds one leaf. -/
def trainNumLeaves (numLeaves : Nat) (bestGain : Nat → Rat) : Nat :=
  1 + trainNumSplits numLeaves bestGain

/-! ### Histogram pool capacity: SerialTreeLearner::Init
(serial_tree_learner.cpp lines 50-64) -/

/-- From SerialTreeLearner::Init (serial_tree_learner.cpp 50-64): the
histogram pool capacity.  A negative histogram_pool_size means num_leaves;
otherwise the byte budget histogram_pool_size * 1024 * 1024 is divided by the
total per-leaf histogram size and truncated (static_cast to int of a
non-negative double, hence the floor); the result is clamped below by 2
(line 62) and above by num_leaves (line 63). -/
def maxCacheSize (histogramPoolSize : Rat) (numLeaves : Int) (totalHistogramSize : Int) : Int :=
  min
    (max 2
      (if histogramPoolSize < 0 then numLeaves
       else Rat.floor (histogramPoolSize * 1024 * 1024 / (totalHistogramSize : Rat))))
    numLeaves

/-! ### Parallel-training group-column rejection: Dataset::LoadTrainData
(dataset.cpp lines 420-427) -/

/-- From Dataset::LoadTrainData (dataset.cpp 420-427): whether the call raises
Log::Fatal "Don't support query id in data file when training parallel
without pre-partition".  The test on the resolved group column index is
group_idx_ > 0. -/
def rejectsParallelGroup (numMachines : Int) (isPrePartition : Bool) (groupIdx : Int) : Bool :=
  decide (1 < numMachines) && !isPrePartition && decide (0 < groupIdx)

/-- A group/query column is configured exactly when group_idx_ is
non-negative: the sentinel for "no group column" is negative (cf. the CHECK
group_idx_ < 0 || group_idx_ < num_total_features_ at dataset.cpp line 312,
and the uses at lines 540-541). -/
def groupColumnConfigured (groupIdx : Int) : Bool :=
  decide (0 ≤ groupIdx)

/-! ### Connect retry loop: Linkers::Construct
(linkers_socket.cpp lines 183-203) -/

/-- connect_fail_retry_cnt (linkers_socket.cpp line 183). -/
def connectFailRetryCnt : Nat := 20

/-- connect_fail_delay_time in milliseconds (linkers_socket.cpp line 184). -/
def connectFailDelayMs : Nat := 10 * 1000

/-- Outcome of handling one higher-ranked peer in Linkers::Construct. -/
structure ConnectResult where
  connected : Bool
  attempts : Nat
  sleeps : Nat
  sentRankOnSocket : Bool
  registeredLinker : Bool
  fatal : Bool
deriving DecidableEq

/-- From Linkers::Construct (linkers_socket.cpp 189-202): the retry loop for
one peer of higher rank.  connectOk i tells whether the i-th
TcpSocket::Connect attempt succeeds.  On success the loop breaks; on failure
it warns and sleeps connect_fail_delay_time milliseconds.  After the loop -
whether or not any attempt succeeded - the local rank is sent on the socket
(line 200) and the socket is registered with SetLinker (line 201); Construct
contains no fatal path. -/
def connectAttempts (connectOk : Nat → Bool) : Nat → Nat → ConnectResult
  | _, 0 =>
    { connected := false, attempts := 0, sleeps := 0,
      sentRankOnSocket := true, registeredLinker := true, fatal := false }
  | i, fuel + 1 =>
    if connectOk i then
      { connected := true, attempts := 1, sleeps := 0,
        sentRankOnSocket := true, registeredLinker := true, fatal := false }
    else
      let r := connectAttempts connectOk (i + 1) fuel
      { r with attempts := r.attempts + 1, sleeps := r.sleeps + 1 }

/-- The full handling of one higher-ranked peer: at most
connect_fail_retry_cnt = 20 connect attempts. -/
def constructConnect (connectOk : Nat → Bool) : ConnectResult :=
  connectAttempts connectOk 0 connectFailRetryCnt

/-! ### Smaller/larger child assignment: SerialTreeLearner::Split and
SerialTreeLearner::BeforeFindBestSplit
(serial_tree_learner.cpp lines 427-437 and 270-283) -/

/-- From SerialTreeLearner::Split (serial_tree_learner.cpp 427-437): which
child's LeafSplits is initialized as the smaller leaf and which as the larger,
given the split's left and right row counts; the comparison is the strict
left_count < right_count.  Returns (smaller leaf, larger leaf). -/
def splitChildrenAssign (leftLeaf rightLeaf : Int) (leftCount rightCount : Int) : Int × Int :=
  if leftCount < rightCount then (leftLeaf, rightLeaf) else (rightLeaf, leftLeaf)

/-- From SerialTreeLearner::BeforeFindBestSplit (serial_tree_learner.cpp
270-283): which leaf's histogram array becomes the smaller and which the
larger before the next best-split search; the comparison is the strict
num_data_in_left_child < num_data_in_right_child.  Returns
(smaller leaf, larger leaf). -/
def beforeFindBestSplitAssign (leftLeaf rightLeaf : Int)
    (numDataLeft numDataRight : Int) : Int × Int :=
  if numDataLeft < numDataRight then (leftLeaf, rightLeaf) else (rightLeaf, leftLeaf)

/-! ### Machine list parsing: Linkers::ParseMachineList
(linkers_socket.cpp lines 79-110) -/

/-- Whitespace for trimming. -/
def isSpaceChar (c : Char) : Bool :=
  c = ' ' || c = '\t' || c = '\r' || c = '\n'

/-- Modelled from the spec: Common::Trim (utils/common.h is not under src/)
removes leading and trailing whitespace from a line. -/
def commonTrim (s : String) : String :=
  String.mk (((s.toList.dropWhile isSpaceChar).reverse.dropWhile isSpaceChar).reverse)

/-- Decimal digits accumulated left to right, stopping at the first
non-digit. -/
def digitsToNat : List Char → Nat → Nat
  | [], acc => acc
  | c :: rest, acc =>
    if c.isDigit then digitsToNat rest (acc * 10 + (c.toNat - 48)) else acc

/-- Modelled from the spec: Common::Atoi and atoi (utils/common.h is not under
src/) parse a decimal integer (optional leading minus sign) from the start of
the string. -/
def commonAtoi (s : String) : Int :=
  match s.toList with
  | '-' :: rest => -(digitsToNat rest 0 : Int)
  | cs => (digitsToNat cs 0 : Int)

/-- Splitting worker: accumulates the current piece in reverse. -/
def splitChars (delim : Char) : List Char → List Char → List String
  | acc, [] => if acc.isEmpty then [] else [String.mk acc.reverse]
  | acc, c :: rest =>
    if c = delim then
      if acc.isEmpty then splitChars delim [] rest
      else String.mk acc.reverse :: splitChars delim [] rest
    else splitChars delim (c :: acc) rest

/-- Modelled from the spec: Common::Split (utils/common.h is not under src/)
splits a string on a delimiter character, dropping empty pieces. -/
def commonSplit (s : String) (delim : Char) : List String :=
  splitChars delim [] s.toList

/-- State of the machine-list parse: the local rank (initialized to -1 in the
Linkers constructor, linkers_socket.cpp line 27) and the collected machine
entries. -/
structure MachineListState where
  rank : Int
  ips : List String
  ports : List Int
deriving DecidableEq

def machineListInit : MachineListState :=
  { rank := -1, ips := [], ports := [] }

/-- The C++ line.find_first_of("rank=") != npos (linkers_socket.cpp line 88):
find_first_of searches for any single character of its argument, so the test
holds exactly when the line contains one of the characters r a n k = . -/
def containsRankChar (line : String) : Bool :=
  line.toList.any (fun c => c = 'r' || c = 'a' || c = 'n' || c = 'k' || c = '=')

/-- From Linkers::ParseMachineList (linkers_socket.cpp 86-105): one loop
iteration.  The line is trimmed in place; if it contains any character of
"rank=" it is split on the equals sign and the second piece is parsed as the
local rank (none models the out-of-range vector access, undefined behavior in
the C++, when that split yields fewer than two pieces); otherwise it is split
on spaces, skipped unless exactly two pieces result, and - unless
num_machines entries were already collected, in which case the loop warns and
breaks (the Bool component) - the trimmed ip and parsed port are appended. -/
def parseMachineLine (numMachines : Nat) (st : MachineListState) (rawLine : String) :
    Option (MachineListState × Bool) :=
  let line := commonTrim rawLine
  if containsRankChar line then
    match commonSplit line '=' with
    | _ :: second :: _ => some ({ st with rank := commonAtoi second }, false)
    | _ => none
  else
    match commonSplit line ' ' with
    | [ip, port] =>
      if numMachines ≤ st.ips.length then some (st, true)
      else
        some ({ st with ips := st.ips ++ [commonTrim ip],
                        ports := st.ports ++ [commonAtoi (commonTrim port)] }, false)
    | _ => some (st, false)

/-- The loop of Linkers::ParseMachineList over the file's lines, honoring the
break. -/
def parseMachineLines (numMachines : Nat) :
    MachineListState → List String → Option MachineListState
  | st, [] => some st
  | st, line :: rest =>
    match parseMachineLine numMachines st line with
    | none => none
    | some (st2, true) => some st2
    | some (st2, false) => parseMachineLines numMachines st2 rest

/-- Result of Linkers::ParseMachineList, including the possibly lowered
num_machines. -/
structure MachineListResult where
  rank : Int
  ips : List String
  ports : List Int
  numMachines : Nat
deriving DecidableEq

/-- From Linkers::ParseMachineList (linkers_socket.cpp 79-110): an empty
machine list file is fatal (lines 82-84, modelled none); after the loop, when
fewer than num_machines entries were collected, num_machines is lowered to
the number of entries (lines 106-109). -/
def parseMachineList (numMachines : Nat) (lines : List String) : Option MachineListResult :=
  if lines.isEmpty then none
  else
    match parseMachineLines numMachines machineListInit lines with
    | none => none
    | some st =>
      some { rank := st.rank, ips := st.ips, ports := st.ports,
             numMachines := if st.ips.length ≠ numMachines then st.ips.length else numMachines }

/-! ### Per-query distributed sampling filter: Dataset::LoadDataToMemory
(dataset.cpp lines 193-211; the same filter occurs in
Dataset::SampleDataFromFile lines 249-269 and
Dataset::LoadDataFromBinFile lines 850-869) -/

/-- Parameters of the per-query filter: the number of queries and the query
boundary array from the metadata, and the worker's rank together with the
stream of random_.NextInt(0, num_machines) results (nextInt k is the k-th
call's value). -/
structure QueryFilterParams where
  numQueries : Nat
  boundaries : Nat → Int
  nextInt : Nat → Int
  rank : Int

/-- The captured mutable state of the filter lambda: qid (a data_size_t,
initialized to -1), is_query_used, and how many NextInt draws happened. -/
structure QueryFilterState where
  qid : Int
  isQueryUsed : Bool
  draws : Nat
deriving DecidableEq

def queryFilterInit : QueryFilterState :=
  { qid := -1, isQueryUsed := false, draws := 0 }

/-- From Dataset::LoadDataToMemory (dataset.cpp 196-211): the filter body for
one line.  If qid >= num_queries the call is fatal (none).  If
line_idx >= query_boundaries[qid + 1] a new query starts: one NextInt draw
decides is_query_used via the comparison with rank, and qid is incremented.
The line is kept iff is_query_used. -/
def queryFilterStep (p : QueryFilterParams) (st : QueryFilterState) (lineIdx : Nat) :
    Option (QueryFilterState × Bool) :=
  if (p.numQueries : Int) ≤ st.qid then none
  else if p.boundaries (st.qid + 1).toNat ≤ (lineIdx : Int) then
    let used := decide (p.nextInt st.draws = p.rank)
    some ({ qid := st.qid + 1, isQueryUsed := used, draws := st.draws + 1 }, used)
  else some (st, st.isQueryUsed)

/-- The filter state after the first n lines (TextReader::ReadAndFilterLines
calls the filter once per line, in line order starting at line 0). -/
def queryFilterStateAfter (p : QueryFilterParams) : Nat → Option QueryFilterState
  | 0 => some queryFilterInit
  | n + 1 =>
    (queryFilterStateAfter p n).bind fun st => (queryFilterStep p st n).map Prod.fst

/-- Whether line n is accepted by the worker (none when the filter hit the
fatal path on or before line n). -/
def queryFilterAccept (p : QueryFilterParams) (n : Nat) : Option Bool :=
  (queryFilterStateAfter p n).bind fun st => (queryFilterStep p st n).map Prod.snd

/-! ### Binary dataset header: Dataset::SaveBinaryFile and
Dataset::LoadDataFromBinFile (dataset.cpp lines 653-713 and 735-898) -/

/-- Little-endian base-256 encoding with a fixed byte width. -/
def leBytes : Nat → Nat → List Nat
  | 0, _ => []
  | w + 1, v => v % 256 :: leBytes w (v / 256)

/-- Little-endian base-256 decoding of a fixed byte width; none when the
input is too short (the C++ checks every fread count and raises Log::Fatal). -/
def readLE : Nat → List Nat → Option (Nat × List Nat)
  | 0, bs => some (0, bs)
  | _ + 1, [] => none
  | w + 1, b :: bs =>
    (readLE w bs).bind fun nr => some (b + 256 * nr.1, nr.2)

/-- A C++ bool as one byte. -/
def boolByte (b : Bool) : List Nat :=
  [if b then 1 else 0]

def readBool (bs : List Nat) : Option (Bool × List Nat) :=
  match bs with
  | [] => none
  | b :: rest => some (decide (b ≠ 0), rest)

/-- A 32-bit int written as its two's-complement bytes, little endian. -/
def i32Bytes (v : Int) : List Nat :=
  leBytes 4 (v % 2 ^ 32).toNat

def readI32 (bs : List Nat) : Option (Int × List Nat) :=
  (readLE 4 bs).bind fun nr =>
    some (if nr.1 < 2 ^ 31 then (nr.1 : Int) else (nr.1 : Int) - 2 ^ 32, nr.2)

def i32ListBytes (vs : List Int) : List Nat :=
  (vs.map i32Bytes).flatten

def readI32List : Nat → List Nat → Option (List Int × List Nat)
  | 0, bs => some ([], bs)
  | k + 1, bs =>
    (readI32 bs).bind fun vr =>
      (readI32List k vr.2).bind fun vsr => some (vr.1 :: vsr.1, vsr.2)

def readRawBytes : Nat → List Nat → Option (List Nat × List Nat)
  | 0, bs => some ([], bs)
  | _ + 1, [] => none
  | k + 1, b :: bs =>
    (readRawBytes k bs).bind fun vr => some (b :: vr.1, vr.2)

/-- One feature name, written as its int length followed by its raw bytes
(dataset.cpp 690-695). -/
def nameBytes (nm : List Nat) : List Nat :=
  i32Bytes (nm.length : Int) ++ nm

def namesBytes (nms : List (List Nat)) : List Nat :=
  (nms.map nameBytes).flatten

/-- Reading one feature name back (dataset.cpp 801-811). -/
def readName (bs : List Nat) : Option (List Nat × List Nat) :=
  (readI32 bs).bind fun lr => readRawBytes lr.1.toNat lr.2

def readNames : Nat → List Nat → Option (List (List Nat) × List Nat)
  | 0, bs => some ([], bs)
  | k + 1, bs =>
    (readName bs).bind fun nr =>
      (readNames k nr.2).bind fun nsr => some (nr.1 :: nsr.1, nsr.2)

/-- The header fields of the binary dataset file, in the order they are
written by Dataset::SaveBinaryFile (dataset.cpp 679-695): global_num_data_
(size_t), is_enable_sparse_ (bool), max_bin_, num_data_, num_features_,
num_total_features_ (int), the used_feature_map_ length (size_t) and entries
(int each, -1 for dropped features), then one length-prefixed name per total
feature.  Feature names are byte strings. -/
structure DatasetHeader where
  globalNumData : Nat
  isEnableSparse : Bool
  maxBin : Int
  numData : Int
  numFeatures : Int
  numTotalFeatures : Int
  usedFeatureMap : List Int
  featureNames : List (List Nat)
deriving DecidableEq

/-- The header bytes, each field in the order of dataset.cpp 679-695.  The
name loop runs num_total_features_ times. -/
def headerBytes (h : DatasetHeader) : List Nat :=
  leBytes 8 h.globalNumData ++ boolByte h.isEnableSparse ++ i32Bytes h.maxBin
    ++ i32Bytes h.numData ++ i32Bytes h.numFeatures ++ i32Bytes h.numTotalFeatures
    ++ leBytes 8 h.usedFeatureMap.length ++ i32ListBytes h.usedFeatureMap
    ++ namesBytes (h.featureNames.take h.numTotalFeatures.toNat)

/-- The declared header size (dataset.cpp 671-676): the sizes of the six
scalar fields, the size_t map length, four bytes per map entry, and
name length plus four bytes per total feature. -/
def sizeOfHeader (h : DatasetHeader) : Nat :=
  8 + 1 + 4 + 4 + 4 + 4 + 8 + 4 * h.usedFeatureMap.length
    + ((h.featureNames.take h.numTotalFeatures.toNat).map (fun nm => nm.length + 4)).sum

/-- The header section of the file as written by Dataset::SaveBinaryFile: the
declared size_of_header (size_t, line 677) followed by the header bytes. -/
def saveBinaryHeader (h : DatasetHeader) : List Nat :=
  leBytes 8 (sizeOfHeader h) ++ headerBytes h

/-- The field-by-field parse of the header block done by
Dataset::LoadDataFromBinFile (dataset.cpp 776-811), in the same order as the
writer. -/
def parseHeaderFields (bs : List Nat) : Option DatasetHeader :=
  (readLE 8 bs).bind fun gr =>
  (readBool gr.2).bind fun sr =>
  (readI32 sr.2).bind fun mr =>
  (readI32 mr.2).bind fun ndr =>
  (readI32 ndr.2).bind fun nfr =>
  (readI32 nfr.2).bind fun ntr =>
  (readLE 8 ntr.2).bind fun mlr =>
  (readI32List mlr.1 mlr.2).bind fun mapr =>
  (readNames ntr.1.toNat mapr.2).bind fun nmr =>
  some { globalNumData := gr.1, isEnableSparse := sr.1, maxBin := mr.1,
         numData := ndr.1, numFeatures := nfr.1, numTotalFeatures := ntr.1,
         usedFeatureMap := mapr.1, featureNames := nmr.1 }

/-- From Dataset::LoadDataFromBinFile (dataset.cpp 756-811 and 837-838):
read the declared header size, check the read byte count against it
(Log::Fatal on a short read, modelled none), parse the header fields from the
header block, and - on the single-machine, no-partition path - overwrite
global_num_data_ with num_data_ (line 838).  Returns the restored header and
the remaining bytes of the file. -/
def loadBinaryHeader (bs : List Nat) : Option (DatasetHeader × List Nat) :=
  (readLE 8 bs).bind fun szr =>
  if szr.2.length < szr.1 then none
  else
    (parseHeaderFields (szr.2.take szr.1)).bind fun h =>
    some ({ h with globalNumData := h.numData.toNat }, szr.2.drop szr.1)

/-! ### NDCG: NDCGMetric::Init and NDCGMetric::Eval
(rank_metric.hpp lines 62-76 and 87-144) -/

/-- From NDCGMetric::Init (rank_metric.hpp 62-76): the cached
inverse_max_dcgs_.  maxDCG i j is DCGCalculator::CalMaxDCG for query i at the
j-th evaluation position; a positive value is inverted and a non-positive one
is marked -1. -/
def inverseMaxDCG (maxDCG : Nat → Nat → Rat) (i j : Nat) : Rat :=
  if 0 < maxDCG i j then 1 / maxDCG i j else -1

/-- From NDCGMetric::Eval (rank_metric.hpp 94-134): the contribution of query
i to the accumulator at evaluation position j.  When
inverse_max_dcgs_[i][0] <= 0 (all documents of the query negative), the bare
constant 1.0 is added in both the unweighted loop (line 101) and the weighted
loop (line 121); otherwise the DCG (dcg i j abstracts
DCGCalculator::CalDCG) times the cached inverse max DCG is added, times the
query weight in the weighted loop (line 130). -/
def ndcgContribution (maxDCG dcg : Nat → Nat → Rat) (qw : Option (Nat → Rat))
    (i j : Nat) : Rat :=
  if inverseMaxDCG maxDCG i 0 ≤ 0 then 1
  else
    match qw with
    | none => dcg i j * inverseMaxDCG maxDCG i j
    | some w => dcg i j * inverseMaxDCG maxDCG i j * w i

/-- From NDCGMetric::Init (rank_metric.hpp 52-60): the weight normalizer is
the number of queries without query weights, else the sum of the query
weights. -/
def ndcgSumQueryWeights (numQueries : Nat) (qw : Option (Nat → Rat)) : Rat :=
  match qw with
  | none => (numQueries : Rat)
  | some w => ∑ i in Finset.range numQueries, w i

/-- From NDCGMetric::Eval (rank_metric.hpp 89-134): the per-thread
accumulator result_buffer_[t][j]; tid assigns each query to the OpenMP thread
that processes it. -/
def ndcgThreadBuffer (numQueries : Nat) (tid : Nat → Nat) (maxDCG dcg : Nat → Nat → Rat)
    (qw : Option (Nat → Rat)) (t j : Nat) : Rat :=
  ∑ i in (Finset.range numQueries).filter (fun i => tid i = t),
    ndcgContribution maxDCG dcg qw i j

/-- From NDCGMetric::Eval (rank_metric.hpp 136-143): the final value at
evaluation position j sums the per-thread buffers and divides by
sum_query_weights_. -/
def ndcgEval (numQueries numThreads : Nat) (tid : Nat → Nat) (maxDCG dcg : Nat → Nat → Rat)
    (qw : Option (Nat → Rat)) (j : Nat) : Rat :=
  (∑ t in Finset.range numThreads, ndcgThreadBuffer numQueries tid maxDCG dcg qw t j)
    / ndcgSumQueryWeights numQueries qw

/-! ### Concrete inputs used by the witnesses below -/

/-- A concrete cached parent histogram. -/
def c1ParentHist : Nat → HistogramBinEntry :=
  fun _ => { sum_gradients := 5, sum_hessians := 7, cnt := 9 }

/-- A concrete smaller-leaf row set. -/
def c1SmallerRows : List BinnedRow :=
  [{ bin := 0, gradient := 1, hessian := 2 }]

/-- A concrete best-gain oracle: positive gain at the first iteration only. -/
def c2Gain : Nat → Rat :=
  fun i => if i = 0 then 1 else 0

/-- A concrete connect-outcome stream: the first attempt fails, the second
succeeds. -/
def c8ConnectOk : Nat → Bool :=
  fun k => decide (1 ≤ k)

/-- A concrete query-filter input: two queries with boundaries 0, 2, 3, a
NextInt stream alternating 0 and 1, and local rank 0. -/
def c4Params : QueryFilterParams :=
  { numQueries := 2,
    boundaries := fun q => if q = 0 then 0 else if q = 1 then 2 else 3,
    nextInt := fun k => (k : Int) % 2,
    rank := 0 }

/-- A concrete dataset header: three rows, two total features of which the
second was dropped, names "a" and "b" as byte strings. -/
def c5Header : DatasetHeader :=
  { globalNumData := 3, isEnableSparse := true, maxBin := 255, numData := 3,
    numFeatures := 1, numTotalFeatures := 2, usedFeatureMap := [0, -1],
    featureNames := [[97], [98]] }

/-- A concrete max-DCG table: every query has max DCG 2 at every position. -/
def c10MaxDCG : Nat → Nat → Rat :=
  fun _ _ => 2

/-- A concrete DCG table. -/
def c10Dcg : Nat → Nat → Rat :=
  fun _ _ => 1

/-- Concrete query weights. -/
def c10Weights : Nat → Rat :=
  fun _ => 3

/-! ## Theorems -/

/-! ### Claim C1: the histogram subtraction identity -/

/-- Claim C1: in any split iteration whose parent histogram is still cached
(parent_leaf_histogram_array_ non-null), for every feature the loop body
processes, the smaller child's histogram is built from its rows - never by
subtraction - and the larger child's histogram is the per-bin difference
parent - smaller, so parent = smaller + larger per bin for the gradient sums,
hessian sums and counts. -/
theorem histogram_subtraction_identity
    (isFeatureUsed parentCached parentSplittable : Bool)
    (parentHist : Nat → HistogramBinEntry)
    (smallerRows largerRows : List BinnedRow)
    (smaller larger : Nat → HistogramBinEntry)
    (h : findBestThresholdsHists isFeatureUsed parentCached parentSplittable
          parentHist smallerRows largerRows = some (smaller, larger)) :
    smaller = constructHist smallerRows ∧
    (parentCached = true → ∀ b,
      (parentHist b).sum_gradients
        = (smaller b).sum_gradients + (larger b).sum_gradients ∧
      (parentHist b).sum_hessians
        = (smaller b).sum_hessians + (larger b).sum_hessians ∧
      (parentHist b).cnt = (smaller b).cnt + (larger b).cnt) := by
  cases isFeatureUsed <;> cases parentCached <;> cases parentSplittable <;>
    simp only [findBestThresholdsHists, Bool.not_false, Bool.not_true, Bool.true_and,
      Bool.false_and, Bool.and_false, Bool.and_true, if_true, if_false, ite_true, ite_false,
      Bool.false_eq_true, reduceCtorEq, Option.some.injEq, Prod.mk.injEq] at h
  case true.false.false =>
    obtain ⟨h1, h2⟩ := h
    exact ⟨h1.symm, by simp⟩
  case true.false.true =>
    obtain ⟨h1, h2⟩ := h
    exact ⟨h1.symm, by simp⟩
  case true.true.true =>
    obtain ⟨h1, h2⟩ := h
    subst h1
    subst h2
    refine ⟨rfl, fun _ b => ?_⟩
    refine ⟨?_, ?_, ?_⟩ <;> simp [subtractHist]

/-- Witness for C1 at a concrete input (parent cached, feature used and
splittable, one smaller-leaf row). -/
theorem histogram_subtraction_identity_witness :
    constructHist c1SmallerRows = constructHist c1SmallerRows ∧
    (true = true → ∀ b,
      (c1ParentHist b).sum_gradients
        = (constructHist c1SmallerRows b).sum_gradients
          + (subtractHist c1ParentHist (constructHist c1SmallerRows) b).sum_gradients ∧
      (c1ParentHist b).sum_hessians
        = (constructHist c1SmallerRows b).sum_hessians
          + (subtractHist c1ParentHist (constructHist c1SmallerRows) b).sum_hessians ∧
      (c1ParentHist b).cnt
        = (constructHist c1SmallerRows b).cnt
          + (subtractHist c1ParentHist (constructHist c1SmallerRows) b).cnt) :=
  histogram_subtraction_identity true true true c1ParentHist c1SmallerRows [] _ _ rfl

/-! ### Claim C2: the split loop stops on non-positive gain and bounds the
leaf count -/

/-- The split loop runs at most fuel iterations. -/
theorem trainSplitsFrom_le (bestGain : Nat → Rat) (split fuel : Nat) :
    trainSplitsFrom bestGain split fuel ≤ fuel := by
  induction fuel generalizing split with
  | zero => simp [trainSplitsFrom]
  | succ n ih =>
    simp only [trainSplitsFrom]
    split
    · omega
    · exact Nat.succ_le_succ (ih (split + 1))

/-- Every applied split had strictly positive best gain. -/
theorem trainSplitsFrom_pos_gain (bestGain : Nat → Rat) (split fuel i : Nat)
    (hi : i < trainSplitsFrom bestGain split fuel) : 0 < bestGain (split + i) := by
  induction fuel generalizing split i with
  | zero => simp [trainSplitsFrom] at hi
  | succ n ih =>
    simp only [trainSplitsFrom] at hi
    by_cases hg : bestGain split ≤ 0
    · simp [hg] at hi
    · rw [if_neg hg] at hi
      cases i with
      | zero => simpa using lt_of_not_le hg
      | succ j =>
        have h2 : split + (j + 1) = (split + 1) + j := by omega
        rw [h2]
        exact ih (split + 1) j (by omega)

/-- When the loop stops before exhausting its iteration budget, it is because
the best gain at the stopping iteration is non-positive. -/
theorem trainSplitsFrom_stop (bestGain : Nat → Rat) (split fuel : Nat)
    (h : trainSplitsFrom bestGain split fuel < fuel) :
    bestGain (split + trainSplitsFrom bestGain split fuel) ≤ 0 := by
  induction fuel generalizing split with
  | zero => omega
  | succ n ih =>
    simp only [trainSplitsFrom] at h ⊢
    by_cases hg : bestGain split ≤ 0
    · simp [hg]
    · rw [if_neg hg] at h ⊢
      have h2 : trainSplitsFrom bestGain (split + 1) n < n := by omega
      have h3 : split + (trainSplitsFrom bestGain (split + 1) n + 1)
          = (split + 1) + trainSplitsFrom bestGain (split + 1) n := by omega
      rw [h3]
      exact ih (split + 1) h2

/-- Claim C2: SerialTreeLearner::Train performs at most num_leaves - 1 split
iterations and stops at the first iteration whose best gain is <= 0, so the
returned tree has at most num_leaves leaves and no split with non-positive
gain is ever applied. -/
theorem train_split_loop_bounds (numLeaves : Nat) (bestGain : Nat → Rat)
    (hpos : 1 ≤ numLeaves) :
    trainNumSplits numLeaves bestGain ≤ numLeaves - 1 ∧
    trainNumLeaves numLeaves bestGain ≤ numLeaves ∧
    (∀ i, i < trainNumSplits numLeaves bestGain → 0 < bestGain i) ∧
    (trainNumSplits numLeaves bestGain < numLeaves - 1 →
      bestGain (trainNumSplits numLeaves bestGain) ≤ 0) := by
  refine ⟨trainSplitsFrom_le _ _ _, ?_, ?_, ?_⟩
  · have h1 := trainSplitsFrom_le bestGain 0 (numLeaves - 1)
    unfold trainNumLeaves trainNumSplits
    omega
  · intro i hi
    have h1 := trainSplitsFrom_pos_gain bestGain 0 (numLeaves - 1) i hi
    simpa using h1
  · intro h
    have h1 := trainSplitsFrom_stop bestGain 0 (numLeaves - 1) h
    simpa using h1

/-- Witness for C2 with num_leaves = 3 and a concrete gain oracle. -/
theorem train_split_loop_bounds_witness :
    trainNumSplits 3 c2Gain ≤ 3 - 1 ∧
    trainNumLeaves 3 c2Gain ≤ 3 ∧
    (∀ i, i < trainNumSplits 3 c2Gain → 0 < c2Gain i) ∧
    (trainNumSplits 3 c2Gain < 3 - 1 → c2Gain (trainNumSplits 3 c2Gain) ≤ 0) :=
  train_split_loop_bounds 3 c2Gain (by omega)

/-! ### Claim C3: the histogram pool capacity clamp -/

/-- Claim C3 counterexample: at the configuration num_leaves = 1 with a
negative histogram_pool_size, the computed capacity is 1, so the claimed
bound K >= 2 fails (the clamp to at most num_leaves is applied last). -/
theorem maxCacheSize_below_two_counterexample :
    maxCacheSize (-1) 1 20 = 1 ∧ ¬ (2 ≤ maxCacheSize (-1) 1 20) := by
  constructor <;> decide

/-- Claim C3 (amended): provided num_leaves >= 2, the capacity satisfies
2 <= K <= num_leaves; a negative histogram_pool_size yields exactly
num_leaves; a non-negative one yields the truncated byte-budget quotient
clamped to [2, num_leaves]. -/
theorem maxCacheSize_clamped (histogramPoolSize : Rat) (numLeaves totalHistogramSize : Int)
    (hnl : 2 ≤ numLeaves) (_htot : 0 < totalHistogramSize) :
    (2 ≤ maxCacheSize histogramPoolSize numLeaves totalHistogramSize ∧
      maxCacheSize histogramPoolSize numLeaves totalHistogramSize ≤ numLeaves) ∧
    (histogramPoolSize < 0 →
      maxCacheSize histogramPoolSize numLeaves totalHistogramSize = numLeaves) ∧
    (0 ≤ histogramPoolSize →
      maxCacheSize histogramPoolSize numLeaves totalHistogramSize
        = min (max 2
            (Rat.floor (histogramPoolSize * 1024 * 1024 / (totalHistogramSize : Rat))))
            numLeaves) := by
  refine ⟨⟨le_min (le_max_left _ _) hnl, min_le_right _ _⟩, ?_, ?_⟩
  · intro hp
    unfold maxCacheSize
    rw [if_pos hp]
    exact min_eq_right (le_max_right _ _)
  · intro hp
    unfold maxCacheSize
    rw [if_neg (not_lt.mpr hp)]

/-- Witness for C3 at histogram_pool_size = -1, num_leaves = 5,
total histogram size 20. -/
theorem maxCacheSize_clamped_witness :
    ((2 ≤ maxCacheSize (-1) 5 20 ∧ maxCacheSize (-1) 5 20 ≤ 5) ∧
     ((-1 : Rat) < 0 → maxCacheSize (-1) 5 20 = 5) ∧
     (0 ≤ (-1 : Rat) →
       maxCacheSize (-1) 5 20
         = min (max 2 (Rat.floor ((-1) * 1024 * 1024 / ((20 : Int) : Rat)))) 5)) :=
  maxCacheSize_clamped (-1) 5 20 (by decide) (by decide)

/-! ### Claim C6: parallel-training rejection of a configured group column -/

/-- Claim C6 failing input: a group column configured at resolved index 0
(e.g. label_column "1" and numeric group_column "0") with num_machines = 2
and no pre-partition is NOT rejected, because the guard at dataset.cpp 423
tests group_idx_ > 0 rather than group_idx_ >= 0; its own comment (line 421)
and the spec intend rejection of every configured group column. -/
theorem group_column_zero_not_rejected :
    groupColumnConfigured 0 = true ∧ rejectsParallelGroup 2 false 0 = false := by
  constructor <;> rfl

/-! ### Claim C8: the connect retry loop -/

/-- Claim C8 counterexample: when all 20 connect attempts to a higher-ranked
peer fail, Linkers::Construct does not raise a fatal; it proceeds, sending
the local rank on the unconnected socket and registering it as a linker. -/
theorem connect_all_attempts_fail_proceeds :
    (constructConnect (fun _ => false)).fatal = false ∧
    (constructConnect (fun _ => false)).connected = false ∧
    (constructConnect (fun _ => false)).sentRankOnSocket = true ∧
    (constructConnect (fun _ => false)).registeredLinker = true ∧
    (constructConnect (fun _ => false)).attempts = connectFailRetryCnt := by
  decide

/-- The retry loop never raises a fatal and always proceeds to send the rank
and register the socket. -/
theorem connectAttempts_proceeds (connectOk : Nat → Bool) (i fuel : Nat) :
    (connectAttempts connectOk i fuel).attempts ≤ fuel ∧
    (connectAttempts connectOk i fuel).fatal = false ∧
    (connectAttempts connectOk i fuel).sentRankOnSocket = true ∧
    (connectAttempts connectOk i fuel).registeredLinker = true := by
  induction fuel generalizing i with
  | zero => simp [connectAttempts]
  | succ n ih =>
    simp only [connectAttempts]
    by_cases hc : connectOk i
    · simp [hc]
    · have h1 := ih (i + 1)
      simp only [hc, if_false, ite_false, Bool.false_eq_true]
      refine ⟨by omega, h1.2.1, h1.2.2.1, h1.2.2.2⟩

/-- When every attempt in the budget fails, the loop exhausts the budget:
fuel attempts, fuel sleeps, still unconnected. -/
theorem connectAttempts_all_fail (connectOk : Nat → Bool) (i fuel : Nat)
    (hfail : ∀ k, k < fuel → connectOk (i + k) = false) :
    (connectAttempts connectOk i fuel).connected = false ∧
    (connectAttempts connectOk i fuel).attempts = fuel ∧
    (connectAttempts connectOk i fuel).sleeps = fuel := by
  induction fuel generalizing i with
  | zero => simp [connectAttempts]
  | succ n ih =>
    have h0 : connectOk i = false := by simpa using hfail 0 (by omega)
    have h1 := ih (i + 1) (fun k hk => by
      have := hfail (k + 1) (by omega)
      simpa [Nat.add_assoc, Nat.add_comm 1 k] using this)
    simp only [connectAttempts, h0, Bool.false_eq_true, if_false, ite_false]
    exact ⟨h1.1, by omega, by omega⟩

/-- When the first success is the k-th attempt, the loop stops there: k + 1
attempts, k sleeps, connected. -/
theorem connectAttempts_first_success (connectOk : Nat → Bool) (i fuel k : Nat)
    (hk : k < fuel) (hfail : ∀ m, m < k → connectOk (i + m) = false)
    (hsucc : connectOk (i + k) = true) :
    (connectAttempts connectOk i fuel).connected = true ∧
    (connectAttempts connectOk i fuel).attempts = k + 1 ∧
    (connectAttempts connectOk i fuel).sleeps = k := by
  induction fuel generalizing i k with
  | zero => omega
  | succ n ih =>
    cases k with
    | zero =>
      have h0 : connectOk i = true := by simpa using hsucc
      simp [connectAttempts, h0]
    | succ j =>
      have h0 : connectOk i = false := by simpa using hfail 0 (by omega)
      have h1 := ih (i + 1) j (by omega)
        (fun m hm => by
          have := hfail (m + 1) (by omega)
          simpa [Nat.add_assoc, Nat.add_comm 1 m] using this)
        (by
          have := hsucc
          simpa [Nat.add_assoc, Nat.add_comm 1 j] using this)
      simp only [connectAttempts, h0, Bool.false_eq_true, if_false, ite_false]
      exact ⟨h1.1, by omega, by omega⟩

/-- Claim C8 (amended): a connect to a higher-ranked peer is attempted at
most 20 times, with one fixed 10-second sleep after each failed attempt; if
an attempt succeeds the loop stops there, and if all 20 attempts fail the
construction still proceeds - the local rank is sent over the unconnected
socket and the socket is registered - with no fatal raised by the retry
logic. -/
theorem connect_retry_behavior (connectOk : Nat → Bool) :
    (constructConnect connectOk).attempts ≤ connectFailRetryCnt ∧
    (constructConnect connectOk).fatal = false ∧
    (constructConnect connectOk).sentRankOnSocket = true ∧
    (constructConnect connectOk).registeredLinker = true ∧
    ((∀ k, k < connectFailRetryCnt → connectOk k = false) →
      (constructConnect connectOk).connected = false ∧
      (constructConnect connectOk).attempts = connectFailRetryCnt ∧
      (constructConnect connectOk).sleeps = connectFailRetryCnt) ∧
    (∀ k, k < connectFailRetryCnt → (∀ m, m < k → connectOk m = false) →
      connectOk k = true →
      (constructConnect connectOk).connected = true ∧
      (constructConnect connectOk).attempts = k + 1 ∧
      (constructConnect connectOk).sleeps = k) := by
  have hp := connectAttempts_proceeds connectOk 0 connectFailRetryCnt
  refine ⟨hp.1, hp.2.1, hp.2.2.1, hp.2.2.2, ?_, ?_⟩
  · intro hfail
    exact connectAttempts_all_fail connectOk 0 connectFailRetryCnt
      (fun k hk => by simpa using hfail k hk)
  · intro k hk hfail hsucc
    exact connectAttempts_first_success connectOk 0 connectFailRetryCnt k hk
      (fun m hm => by simpa using hfail m hm) (by simpa using hsucc)

/-- Witness for C8 with a stream whose first attempt fails and second
succeeds. -/
theorem connect_retry_behavior_witness :
    (constructConnect c8ConnectOk).attempts ≤ connectFailRetryCnt ∧
    (constructConnect c8ConnectOk).fatal = false ∧
    (constructConnect c8ConnectOk).sentRankOnSocket = true ∧
    (constructConnect c8ConnectOk).registeredLinker = true ∧
    ((∀ k, k < connectFailRetryCnt → c8ConnectOk k = false) →
      (constructConnect c8ConnectOk).connected = false ∧
      (constructConnect c8ConnectOk).attempts = connectFailRetryCnt ∧
      (constructConnect c8ConnectOk).sleeps = connectFailRetryCnt) ∧
    (∀ k, k < connectFailRetryCnt → (∀ m, m < k → c8ConnectOk m = false) →
      c8ConnectOk k = true →
      (constructConnect c8ConnectOk).connected = true ∧
      (constructConnect c8ConnectOk).attempts = k + 1 ∧
      (constructConnect c8ConnectOk).sleeps = k) :=
  connect_retry_behavior c8ConnectOk

/-! ### Claim C9: tie-breaking of the smaller/larger child -/

/-- Claim C9: when both children have exactly equal row counts, the right
(newly created) leaf is the smaller leaf and the left leaf the larger leaf,
both in SerialTreeLearner::Split and in
SerialTreeLearner::BeforeFindBestSplit - the comparisons are strict. -/
theorem equal_counts_smaller_is_right (leftLeaf rightLeaf c : Int) :
    splitChildrenAssign leftLeaf rightLeaf c c = (rightLeaf, leftLeaf) ∧
    beforeFindBestSplitAssign leftLeaf rightLeaf c c = (rightLeaf, leftLeaf) := by
  constructor <;> simp [splitChildrenAssign, beforeFindBestSplitAssign]

/-! ### Claim C10: NDCG contributions of all-negative queries -/

/-- Claim C10 counterexample: one query with query weight 2 and no positive
document (max ideal DCG 0).  Its contribution is the bare 1.0 - the query
weight is NOT applied in this branch - so the result is 1 / 2, not the
(2 * 1) / 2 = 1 the claim predicts. -/
theorem ndcg_all_negative_query_ignores_weight :
    ndcgEval 1 1 (fun _ => 0) (fun _ _ => 0) (fun _ _ => 0) (some (fun _ => 2)) 0 = 1 / 2 ∧
    (1 / 2 : Rat) ≠ 1 := by
  constructor
  · simp [ndcgEval, ndcgThreadBuffer, ndcgContribution, inverseMaxDCG, ndcgSumQueryWeights,
      Finset.sum_range_succ, Finset.filter_true_of_mem]
  · norm_num

/-- Claim C10 (amended): the final NDCG at evaluation position j is the sum
over queries of per-query contributions divided by the sum of query weights,
independently of the OpenMP thread partition; a query whose max ideal DCG at
the first evaluation position is not positive contributes exactly 1.0 - with
the query weight NOT applied even when weights are present - while a query
with positive max ideal DCG contributes its DCG ratio (times its weight when
weights are present). -/
theorem ndcg_eval_characterization (numQueries numThreads : Nat) (tid : Nat → Nat)
    (maxDCG dcg : Nat → Nat → Rat) (qw : Option (Nat → Rat)) (j : Nat)
    (htid : ∀ i, i < numQueries → tid i < numThreads) :
    ndcgEval numQueries numThreads tid maxDCG dcg qw j
      = (∑ i in Finset.range numQueries, ndcgContribution maxDCG dcg qw i j)
          / ndcgSumQueryWeights numQueries qw ∧
    (∀ i, maxDCG i 0 ≤ 0 → ndcgContribution maxDCG dcg qw i j = 1) ∧
    (∀ i, 0 < maxDCG i 0 →
      ndcgContribution maxDCG dcg qw i j
        = qw.elim (dcg i j * inverseMaxDCG maxDCG i j)
            (fun w => dcg i j * inverseMaxDCG maxDCG i j * w i)) := by
  refine ⟨?_, ?_, ?_⟩
  · unfold ndcgEval ndcgThreadBuffer
    congr 1
    exact Finset.sum_fiberwise_of_maps_to
      (fun i hi => Finset.mem_range.mpr (htid i (Finset.mem_range.mp hi))) _
  · intro i h
    have hneg : inverseMaxDCG maxDCG i 0 = -1 := by
      unfold inverseMaxDCG
      rw [if_neg (not_lt.mpr h)]
    unfold ndcgContribution
    rw [hneg]
    norm_num
  · intro i h
    have hpos : 0 < inverseMaxDCG maxDCG i 0 := by
      unfold inverseMaxDCG
      rw [if_pos h]
      exact one_div_pos.mpr h
    unfold ndcgContribution
    rw [if_neg (not_le.mpr hpos)]
    cases qw <;> rfl

/-- Witness for C10 at one query, one thread, max DCG 2, DCG 1, weight 3. -/
theorem ndcg_eval_characterization_witness :
    ndcgEval 1 1 (fun _ => 0) c10MaxDCG c10Dcg (some c10Weights) 0
      = (∑ i in Finset.range 1, ndcgContribution c10MaxDCG c10Dcg (some c10Weights) i 0)
          / ndcgSumQueryWeights 1 (some c10Weights) ∧
    (∀ i, c10MaxDCG i 0 ≤ 0 →
      ndcgContribution c10MaxDCG c10Dcg (some c10Weights) i 0 = 1) ∧
    (∀ i, 0 < c10MaxDCG i 0 →
      ndcgContribution c10MaxDCG c10Dcg (some c10Weights) i 0
        = (some c10Weights).elim (c10Dcg i 0 * inverseMaxDCG c10MaxDCG i 0)
            (fun w => c10Dcg i 0 * inverseMaxDCG c10MaxDCG i 0 * w i)) :=
  ndcg_eval_characterization 1 1 (fun _ => 0) c10MaxDCG c10Dcg (some c10Weights) 0
    (fun _ _ => Nat.zero_lt_one)

/-! ### Claim C7: machine list parsing -/

/-- Claim C7 counterexample: the line "x=1" is not of the form rank=N nor
ip port, so the claim says it is skipped without effect; but find_first_of
matches its equals sign, so the rank branch runs and sets the local rank from
-1 to 1 (and lowers num_machines to the 0 collected entries). -/
theorem machine_list_line_not_skipped :
    parseMachineList 2 ["x=1"]
      = some { rank := 1, ips := [], ports := [], numMachines := 0 } ∧
    (parseMachineList 2 ["x=1"]).map MachineListResult.rank ≠ some (-1) := by
  constructor <;> decide

/-- The rank branch of one parse step, when the split on the equals sign has
at least two pieces. -/
theorem parseMachineLine_rank_eq (numMachines : Nat) (st : MachineListState) (line : String)
    (hc : containsRankChar (commonTrim line) = true)
    (a b : String) (rest2 : List String)
    (hsp : commonSplit (commonTrim line) '=' = a :: b :: rest2) :
    parseMachineLine numMachines st line = some ({ st with rank := commonAtoi b }, false) := by
  simp [parseMachineLine, hc, hsp]

/-- The rank branch of one parse step, when the split on the equals sign has
fewer than two pieces: the C++ indexes the split vector out of range. -/
theorem parseMachineLine_rank_oob (numMachines : Nat) (st : MachineListState) (line : String)
    (hc : containsRankChar (commonTrim line) = true)
    (hlen : (commonSplit (commonTrim line) '=').length < 2) :
    parseMachineLine numMachines st line = none := by
  rcases hsp : commonSplit (commonTrim line) '=' with _ | ⟨a, _ | ⟨b, r2⟩⟩
  · simp [parseMachineLine, hc, hsp]
  · simp [parseMachineLine, hc, hsp]
  · rw [hsp] at hlen
    simp only [List.length_cons] at hlen
    omega

/-- A two-piece machine line under the cap appends one entry. -/
theorem parseMachineLine_append_eq (numMachines : Nat) (st : MachineListState) (line : String)
    (hc : containsRankChar (commonTrim line) = false)
    (ip port : String) (hsp : commonSplit (commonTrim line) ' ' = [ip, port])
    (hcap : st.ips.length < numMachines) :
    parseMachineLine numMachines st line
      = some ({ st with ips := st.ips ++ [commonTrim ip],
                        ports := st.ports ++ [commonAtoi (commonTrim port)] }, false) := by
  simp [parseMachineLine, hc, hsp, Nat.not_le.mpr hcap]

/-- A two-piece machine line at the cap warns and stops the loop. -/
theorem parseMachineLine_break_eq (numMachines : Nat) (st : MachineListState) (line : String)
    (hc : containsRankChar (commonTrim line) = false)
    (ip port : String) (hsp : commonSplit (commonTrim line) ' ' = [ip, port])
    (hcap : numMachines ≤ st.ips.length) :
    parseMachineLine numMachines st line = some (st, true) := by
  simp [parseMachineLine, hc, hsp, hcap]

/-- A line without rank characters and without exactly two pieces is skipped
without effect. -/
theorem parseMachineLine_skip_eq (numMachines : Nat) (st : MachineListState) (line : String)
    (hc : containsRankChar (commonTrim line) = false)
    (hlen : (commonSplit (commonTrim line) ' ').length ≠ 2) :
    parseMachineLine numMachines st line = some (st, false) := by
  rcases hsp : commonSplit (commonTrim line) ' ' with _ | ⟨ip, _ | ⟨port, _ | ⟨c, r3⟩⟩⟩
  · simp [parseMachineLine, hc, hsp]
  · simp [parseMachineLine, hc, hsp]
  · rw [hsp] at hlen
    simp at hlen
  · simp [parseMachineLine, hc, hsp]

/-- One parse step keeps the number of collected entries at or below
num_machines. -/
theorem parseMachineLine_cap (numMachines : Nat) (st : MachineListState) (line : String)
    (st2 : MachineListState) (brk : Bool)
    (h : parseMachineLine numMachines st line = some (st2, brk))
    (hle : st.ips.length ≤ numMachines) : st2.ips.length ≤ numMachines := by
  by_cases hc : containsRankChar (commonTrim line) = true
  · rcases hsp : commonSplit (commonTrim line) '=' with _ | ⟨a, _ | ⟨b, r2⟩⟩
    · rw [parseMachineLine_rank_oob numMachines st line hc (by rw [hsp]; simp)] at h
      exact absurd h (by simp)
    · rw [parseMachineLine_rank_oob numMachines st line hc (by rw [hsp]; simp)] at h
      exact absurd h (by simp)
    · rw [parseMachineLine_rank_eq numMachines st line hc a b r2 hsp] at h
      simp only [Option.some.injEq, Prod.mk.injEq] at h
      rw [← h.1]
      simpa using hle
  · have hc2 : containsRankChar (commonTrim line) = false := by
      simpa using hc
    rcases hsp : commonSplit (commonTrim line) ' ' with _ | ⟨ip, _ | ⟨port, _ | ⟨c, r3⟩⟩⟩
    · rw [parseMachineLine_skip_eq numMachines st line hc2 (by rw [hsp]; simp)] at h
      simp only [Option.some.injEq, Prod.mk.injEq] at h
      rw [← h.1]
      exact hle
    · rw [parseMachineLine_skip_eq numMachines st line hc2 (by rw [hsp]; simp)] at h
      simp only [Option.some.injEq, Prod.mk.injEq] at h
      rw [← h.1]
      exact hle
    · by_cases hcap : numMachines ≤ st.ips.length
      · rw [parseMachineLine_break_eq numMachines st line hc2 ip port hsp hcap] at h
        simp only [Option.some.injEq, Prod.mk.injEq] at h
        rw [← h.1]
        exact hle
      · rw [parseMachineLine_append_eq numMachines st line hc2 ip port hsp (by omega)] at h
        simp only [Option.some.injEq, Prod.mk.injEq] at h
        rw [← h.1]
        simp only [List.length_append, List.length_cons, List.length_nil]
        omega
    · rw [parseMachineLine_skip_eq numMachines st line hc2 (by rw [hsp]; simp)] at h
      simp only [Option.some.injEq, Prod.mk.injEq] at h
      rw [← h.1]
      exact hle

/-- The whole loop keeps the number of collected entries at or below
num_machines. -/
theorem parseMachineLines_cap (numMachines : Nat) (lines : List String) :
    ∀ st st2, parseMachineLines numMachines st lines = some st2 →
      st.ips.length ≤ numMachines → st2.ips.length ≤ numMachines := by
  induction lines with
  | nil =>
    intro st st2 h hle
    simp only [parseMachineLines, Option.some.injEq] at h
    rw [← h]
    exact hle
  | cons line rest ih =>
    intro st st2 h hle
    simp only [parseMachineLines] at h
    rcases hstep : parseMachineLine numMachines st line with _ | ⟨st3, brk⟩
    · rw [hstep] at h
      simp at h
    · rw [hstep] at h
      have h3 := parseMachineLine_cap numMachines st line st3 brk hstep hle
      cases brk
      · exact ih st3 st2 h h3
      · simp only [Option.some.injEq] at h
        rw [← h]
        exact h3

/-- Claim C7 (amended): a trimmed line containing any character of "rank="
is handled by the rank branch - it is split on the equals sign, the second
piece (when it exists) is parsed as the local rank and no machine entry is
added, and with fewer than two pieces the C++ indexes the split vector out of
range (undefined behavior); lines of the form rank=N fall in the first of
these cases.  A trimmed line with none of those characters and exactly two
space-separated pieces appends one (ip, port) entry while fewer than
num_machines entries exist, and once num_machines entries have been collected
such a line warns and stops the loop; any other such line is skipped without
effect.  The number of collected entries never exceeds num_machines. -/
theorem machine_list_parse_behavior (numMachines : Nat) (st : MachineListState)
    (line : String) :
    (containsRankChar (commonTrim line) = true →
      ∀ a b rest2, commonSplit (commonTrim line) '=' = a :: b :: rest2 →
        parseMachineLine numMachines st line
          = some ({ st with rank := commonAtoi b }, false)) ∧
    (containsRankChar (commonTrim line) = true →
      (commonSplit (commonTrim line) '=').length < 2 →
      parseMachineLine numMachines st line = none) ∧
    (containsRankChar (commonTrim line) = false →
      ∀ ip port, commonSplit (commonTrim line) ' ' = [ip, port] →
        (st.ips.length < numMachines →
          parseMachineLine numMachines st line
            = some ({ st with ips := st.ips ++ [commonTrim ip],
                              ports := st.ports ++ [commonAtoi (commonTrim port)] },
                    false)) ∧
        (numMachines ≤ st.ips.length →
          parseMachineLine numMachines st line = some (st, true))) ∧
    (containsRankChar (commonTrim line) = false →
      (commonSplit (commonTrim line) ' ').length ≠ 2 →
      parseMachineLine numMachines st line = some (st, false)) ∧
    (∀ lines st2, parseMachineLines numMachines st lines = some st2 →
      st.ips.length ≤ numMachines → st2.ips.length ≤ numMachines) := by
  refine ⟨?_, ?_, ?_, ?_, ?_⟩
  · intro hc a b rest2 hsp
    exact parseMachineLine_rank_eq numMachines st line hc a b rest2 hsp
  · intro hc hlen
    exact parseMachineLine_rank_oob numMachines st line hc hlen
  · intro hc ip port hsp
    exact ⟨fun hcap => parseMachineLine_append_eq numMachines st line hc ip port hsp hcap,
           fun hcap => parseMachineLine_break_eq numMachines st line hc ip port hsp hcap⟩
  · intro hc hlen
    exact parseMachineLine_skip_eq numMachines st line hc hlen
  · intro lines st2 h hle
    exact parseMachineLines_cap numMachines lines st st2 h hle

/-- Witness for C7 at the line rank=3 with no machines collected. -/
theorem machine_list_parse_behavior_witness :
    (containsRankChar (commonTrim "rank=3") = true →
      ∀ a b rest2, commonSplit (commonTrim "rank=3") '=' = a :: b :: rest2 →
        parseMachineLine 2 machineListInit "rank=3"
          = some ({ machineListInit with rank := commonAtoi b }, false)) ∧
    (containsRankChar (commonTrim "rank=3") = true →
      (commonSplit (commonTrim "rank=3") '=').length < 2 →
      parseMachineLine 2 machineListInit "rank=3" = none) ∧
    (containsRankChar (commonTrim "rank=3") = false →
      ∀ ip port, commonSplit (commonTrim "rank=3") ' ' = [ip, port] →
        (machineListInit.ips.length < 2 →
          parseMachineLine 2 machineListInit "rank=3"
            = some ({ machineListInit with
                        ips := machineListInit.ips ++ [commonTrim ip],
                        ports := machineListInit.ports ++ [commonAtoi (commonTrim port)] },
                    false)) ∧
        (2 ≤ machineListInit.ips.length →
          parseMachineLine 2 machineListInit "rank=3" = some (machineListInit, true))) ∧
    (containsRankChar (commonTrim "rank=3") = false →
      (commonSplit (commonTrim "rank=3") ' ').length ≠ 2 →
      parseMachineLine 2 machineListInit "rank=3" = some (machineListInit, false)) ∧
    (∀ lines st2, parseMachineLines 2 machineListInit lines = some st2 →
      machineListInit.ips.length ≤ 2 → st2.ips.length ≤ 2) :=
  machine_list_parse_behavior 2 machineListInit "rank=3"

/-! ### Claim C4: the per-query distributed sampling filter -/

/-- Query boundaries are non-negative up to the query count. -/
theorem queryFilter_boundaries_nonneg (p : QueryFilterParams)
    (h0 : p.boundaries 0 = 0)
    (hmono : ∀ q, q < p.numQueries → p.boundaries q < p.boundaries (q + 1)) :
    ∀ q, q ≤ p.numQueries → 0 ≤ p.boundaries q := by
  intro q
  induction q with
  | zero =>
    intro _
    rw [h0]
  | succ m ih =>
    intro hm
    have h1 := hmono m (by omega)
    have h2 := ih (by omega)
    omega

/-- Query boundaries are monotone up to the query count. -/
theorem queryFilter_boundaries_mono (p : QueryFilterParams)
    (hmono : ∀ q, q < p.numQueries → p.boundaries q < p.boundaries (q + 1)) :
    ∀ a b, a ≤ b → b ≤ p.numQueries → p.boundaries a ≤ p.boundaries b := by
  intro a b
  induction b with
  | zero =>
    intro hab _
    have ha : a = 0 := by omega
    rw [ha]
  | succ m ih =>
    intro hab hb
    rcases Nat.lt_or_ge a (m + 1) with h | h
    · have h1 := ih (by omega) (by omega)
      have h2 := hmono m (by omega)
      omega
    · have ha : a = m + 1 := by omega
      rw [ha]

/-- The new-query branch of the filter. -/
theorem queryFilterStep_new (p : QueryFilterParams) (st : QueryFilterState) (n : Nat)
    (h1 : ¬ ((p.numQueries : Int) ≤ st.qid))
    (h2 : p.boundaries (st.qid + 1).toNat ≤ (n : Int)) :
    queryFilterStep p st n
      = some ({ qid := st.qid + 1, isQueryUsed := decide (p.nextInt st.draws = p.rank),
                draws := st.draws + 1 }, decide (p.nextInt st.draws = p.rank)) := by
  simp [queryFilterStep, h1, h2]

/-- The same-query branch of the filter. -/
theorem queryFilterStep_same (p : QueryFilterParams) (st : QueryFilterState) (n : Nat)
    (h1 : ¬ ((p.numQueries : Int) ≤ st.qid))
    (h2 : ¬ (p.boundaries (st.qid + 1).toNat ≤ (n : Int))) :
    queryFilterStep p st n = some (st, st.isQueryUsed) := by
  simp [queryFilterStep, h1, h2]

/-- Unfolding one line of the filter run. -/
theorem queryFilterStateAfter_succ (p : QueryFilterParams) (n : Nat) (st : QueryFilterState)
    (h : queryFilterStateAfter p n = some st) :
    queryFilterStateAfter p (n + 1) = (queryFilterStep p st n).map Prod.fst := by
  simp [queryFilterStateAfter, h]

/-- The central invariant: after the filter has processed lines 0 .. n where
line n belongs to query q, the state records qid = q, the q-th NextInt
decision, and exactly q + 1 consumed draws. -/
theorem queryFilterStateAfter_inv (p : QueryFilterParams)
    (h0 : p.boundaries 0 = 0)
    (hmono : ∀ q, q < p.numQueries → p.boundaries q < p.boundaries (q + 1)) :
    ∀ (n q : Nat), q < p.numQueries → p.boundaries q ≤ (n : Int) →
      (n : Int) < p.boundaries (q + 1) →
      queryFilterStateAfter p (n + 1)
        = some { qid := (q : Int), isQueryUsed := decide (p.nextInt q = p.rank),
                 draws := q + 1 } := by
  intro n
  induction n with
  | zero =>
    intro q hq hb1 hb2
    have hq0 : q = 0 := by
      by_contra hne
      have hge : 1 ≤ q := by omega
      have h1 := queryFilter_boundaries_mono p hmono 1 q hge (by omega)
      have h2 : p.boundaries 0 < p.boundaries 1 := by simpa using hmono 0 (by omega)
      rw [h0] at h2
      omega
    subst hq0
    rw [queryFilterStateAfter_succ p 0 queryFilterInit rfl,
      queryFilterStep_new p queryFilterInit 0
        (by simp only [queryFilterInit]; omega)
        (by simp only [queryFilterInit]; norm_num [h0])]
    simp [queryFilterInit]
  | succ m ih =>
    intro q hq hb1 hb2
    by_cases hcase : p.boundaries q ≤ (m : Int)
    · have hm2 : ((m : Nat) : Int) < p.boundaries (q + 1) := by
        push_cast at hb2 ⊢
        omega
      have hprev := ih q hq hcase hm2
      have hc1 : ¬ ((p.numQueries : Int) ≤
          (⟨(q : Int), decide (p.nextInt q = p.rank), q + 1⟩ : QueryFilterState).qid) := by
        show ¬ ((p.numQueries : Int) ≤ (q : Int))
        omega
      have hc2 : ¬ (p.boundaries (((⟨(q : Int), decide (p.nextInt q = p.rank), q + 1⟩ :
          QueryFilterState).qid + 1).toNat) ≤ ((m + 1 : Nat) : Int)) := by
        show ¬ (p.boundaries (((q : Int) + 1).toNat) ≤ ((m + 1 : Nat) : Int))
        have hcast : ((q : Int) + 1).toNat = q + 1 := by omega
        rw [hcast]
        push_cast at hb2 ⊢
        omega
      rw [queryFilterStateAfter_succ p (m + 1) _ hprev,
        queryFilterStep_same p _ (m + 1) hc1 hc2]
      rfl
    · have hbeq : p.boundaries q = ((m + 1 : Nat) : Int) := by
        push_cast at hb1 hcase ⊢
        omega
      cases q with
      | zero =>
        exfalso
        rw [h0] at hbeq
        push_cast at hbeq
        omega
      | succ q0 =>
        have hq0 : q0 < p.numQueries := by omega
        have hb1q : p.boundaries q0 ≤ ((m : Nat) : Int) := by
          have h1 := hmono q0 hq0
          rw [hbeq] at h1
          push_cast at h1 ⊢
          omega
        have hb2q : ((m : Nat) : Int) < p.boundaries (q0 + 1) := by
          rw [hbeq]
          push_cast
          omega
        have hprev := ih q0 hq0 hb1q hb2q
        have hc1 : ¬ ((p.numQueries : Int) ≤
            (⟨(q0 : Int), decide (p.nextInt q0 = p.rank), q0 + 1⟩ : QueryFilterState).qid) := by
          show ¬ ((p.numQueries : Int) ≤ (q0 : Int))
          omega
        have hc2 : p.boundaries (((⟨(q0 : Int), decide (p.nextInt q0 = p.rank), q0 + 1⟩ :
            QueryFilterState).qid + 1).toNat) ≤ ((m + 1 : Nat) : Int) := by
          show p.boundaries (((q0 : Int) + 1).toNat) ≤ ((m + 1 : Nat) : Int)
          have hcast : ((q0 : Int) + 1).toNat = q0 + 1 := by omega
          rw [hcast, hbeq]
        rw [queryFilterStateAfter_succ p (m + 1) _ hprev,
          queryFilterStep_new p _ (m + 1) hc1 hc2]
        simp only [Option.map_some', Option.some.injEq, QueryFilterState.mk.injEq]
        refine ⟨by push_cast; ring, trivial, trivial⟩


/-- The flag the filter returns for a line equals the is_query_used field of
the resulting state, in both branches. -/
theorem queryFilterStep_snd (p : QueryFilterParams) (st st2 : QueryFilterState) (n : Nat)
    (used : Bool) (h : queryFilterStep p st n = some (st2, used)) :
    used = st2.isQueryUsed := by
  unfold queryFilterStep at h
  by_cases h1 : (p.numQueries : Int) ≤ st.qid
  · rw [if_pos h1] at h
    exact absurd h (by simp)
  · rw [if_neg h1] at h
    by_cases h2 : p.boundaries (st.qid + 1).toNat ≤ (n : Int)
    · rw [if_pos h2] at h
      simp only [Option.some.injEq, Prod.mk.injEq] at h
      obtain ⟨he1, he2⟩ := h
      rw [← he1, ← he2]
    · rw [if_neg h2] at h
      simp only [Option.some.injEq, Prod.mk.injEq] at h
      obtain ⟨he1, he2⟩ := h
      rw [← he1, ← he2]

/-- The accept flag of line n is the is_query_used field of the state after
line n. -/
theorem queryFilterAccept_map (p : QueryFilterParams) (n : Nat) :
    queryFilterAccept p n
      = (queryFilterStateAfter p (n + 1)).map QueryFilterState.isQueryUsed := by
  simp only [queryFilterAccept, queryFilterStateAfter]
  rcases h : queryFilterStateAfter p n with _ | st
  · rfl
  · show (queryFilterStep p st n).map Prod.snd
      = ((queryFilterStep p st n).map Prod.fst).map QueryFilterState.isQueryUsed
    rcases hs : queryFilterStep p st n with _ | ⟨st2, used⟩
    · rfl
    · show some used = some st2.isQueryUsed
      exact congrArg some (queryFilterStep_snd p st st2 n used hs)

/-- Claim C4: with query boundaries present (first boundary 0, strictly
increasing up to the query count), the filter keeps queries whole, draws
exactly one NextInt decision per query via the comparison with rank, and
admits the first query despite qid starting at -1: every line i of query q
is accepted with the flag of the single q-th draw, and after any line of
query q the state has qid = q and q + 1 consumed draws (so the filter never
hits its fatal path on the file's lines). -/
theorem query_filter_whole_queries (p : QueryFilterParams)
    (h0 : p.boundaries 0 = 0)
    (hmono : ∀ q, q < p.numQueries → p.boundaries q < p.boundaries (q + 1)) :
    ∀ q, q < p.numQueries →
      ∀ (i : Nat), p.boundaries q ≤ (i : Int) → (i : Int) < p.boundaries (q + 1) →
        queryFilterAccept p i = some (decide (p.nextInt q = p.rank)) ∧
        queryFilterStateAfter p (i + 1)
          = some { qid := (q : Int), isQueryUsed := decide (p.nextInt q = p.rank),
                   draws := q + 1 } := by
  intro q hq i hb1 hb2
  have hinv := queryFilterStateAfter_inv p h0 hmono i q hq hb1 hb2
  refine ⟨?_, hinv⟩
  rw [queryFilterAccept_map, hinv]
  rfl

/-- Witness for C4: line 2 belongs to the second query (index 1) of the
concrete input, and its accept flag comes from NextInt draw number 1. -/
theorem query_filter_whole_queries_witness :
    queryFilterAccept c4Params 2 = some (decide (c4Params.nextInt 1 = c4Params.rank)) ∧
    queryFilterStateAfter c4Params (2 + 1)
      = some { qid := ((1 : Nat) : Int),
               isQueryUsed := decide (c4Params.nextInt 1 = c4Params.rank),
               draws := 1 + 1 } :=
  query_filter_whole_queries c4Params (by decide) (by decide) 1 (by decide) 2 (by decide)
    (by decide)

/-! ### Claim C5: the binary dataset header round trip -/

/-- Little-endian encodings have their declared width. -/
theorem leBytes_length (w v : Nat) : (leBytes w v).length = w := by
  induction w generalizing v with
  | zero => rfl
  | succ n ih => simp [leBytes, ih]

/-- Reading back a little-endian encoding of a value within range. -/
theorem readLE_leBytes (w : Nat) :
    ∀ v : Nat, v < 256 ^ w → ∀ rest : List Nat,
      readLE w (leBytes w v ++ rest) = some (v, rest) := by
  induction w with
  | zero =>
    intro v hv rest
    have hv0 : v = 0 := by omega
    subst hv0
    rfl
  | succ w ih =>
    intro v hv rest
    have hdiv : v / 256 < 256 ^ w := by
      have h1 : (256 : Nat) ^ (w + 1) = 256 * 256 ^ w := by ring
      rw [h1] at hv
      omega
    have hmod : v % 256 + 256 * (v / 256) = v := by omega
    simp only [leBytes, List.cons_append, readLE, List.append_eq]
    rw [ih (v / 256) hdiv rest]
    simp only [Option.some_bind]
    rw [hmod]

/-- Reading back a bool byte. -/
theorem readBool_boolByte (b : Bool) (rest : List Nat) :
    readBool (boolByte b ++ rest) = some (b, rest) := by
  cases b <;> simp [boolByte, readBool]

/-- Reading back a 32-bit two's-complement int within range. -/
theorem readI32_i32Bytes (v : Int) (h1 : -(2 ^ 31) ≤ v) (h2 : v < 2 ^ 31) (rest : List Nat) :
    readI32 (i32Bytes v ++ rest) = some (v, rest) := by
  have hp : (256 : Nat) ^ 4 = 2 ^ 32 := by norm_num
  have hemod1 : 0 ≤ v % 2 ^ 32 := Int.emod_nonneg v (by norm_num)
  have hemod2 : v % 2 ^ 32 < 2 ^ 32 := Int.emod_lt_of_pos v (by norm_num)
  have hlt : (v % 2 ^ 32).toNat < 256 ^ 4 := by
    rw [hp]
    omega
  unfold readI32 i32Bytes
  rw [readLE_leBytes 4 _ hlt rest]
  simp only [Option.some_bind]
  by_cases hv : (0 : Int) ≤ v
  · have he : v % 2 ^ 32 = v := by omega
    rw [he]
    have hn : ((v.toNat : Nat) : Int) = v := Int.toNat_of_nonneg hv
    have hlt2 : v.toNat < 2 ^ 31 := by
      have h3 : ((v.toNat : Nat) : Int) < 2 ^ 31 := by
        rw [hn]
        exact h2
      exact_mod_cast h3
    rw [if_pos hlt2, hn]
  · push_neg at hv
    have he : v % 2 ^ 32 = v + 2 ^ 32 := by omega
    rw [he]
    have hge : (0 : Int) ≤ v + 2 ^ 32 := by omega
    have hn : (((v + 2 ^ 32).toNat : Nat) : Int) = v + 2 ^ 32 := Int.toNat_of_nonneg hge
    have hnot : ¬ ((v + 2 ^ 32).toNat < 2 ^ 31) := by
      intro hcon
      have h3 : (((v + 2 ^ 32).toNat : Nat) : Int) < 2 ^ 31 := by exact_mod_cast hcon
      rw [hn] at h3
      omega
    rw [if_neg hnot, hn]
    norm_num

/-- Reading back raw bytes of known length. -/
theorem readRawBytes_append (bs rest : List Nat) :
    readRawBytes bs.length (bs ++ rest) = some (bs, rest) := by
  induction bs with
  | nil => rfl
  | cons b tl ih => simp [readRawBytes, ih, Option.some_bind]

/-- Reading back a list of 32-bit ints within range. -/
theorem readI32List_bytes (vs : List Int) (rest : List Nat)
    (hbound : ∀ v ∈ vs, -(2 ^ 31) ≤ v ∧ v < 2 ^ 31) :
    readI32List vs.length (i32ListBytes vs ++ rest) = some (vs, rest) := by
  induction vs with
  | nil => rfl
  | cons v tl ih =>
    have hv := hbound v (by simp)
    simp only [i32ListBytes, List.map_cons, List.flatten_cons, List.length_cons,
      List.append_assoc, readI32List]
    have htl : (tl.map i32Bytes).flatten = i32ListBytes tl := rfl
    rw [htl, readI32_i32Bytes v hv.1 hv.2 (i32ListBytes tl ++ rest)]
    simp only [Option.some_bind]
    rw [ih (fun u hu => hbound u (by simp [hu]))]
    rfl

/-- Reading back one length-prefixed name. -/
theorem readName_bytes (nm : List Nat) (rest : List Nat)
    (hlen : (nm.length : Int) < 2 ^ 31) :
    readName (nameBytes nm ++ rest) = some (nm, rest) := by
  unfold readName nameBytes
  rw [List.append_assoc,
    readI32_i32Bytes (nm.length : Int) (by omega) hlen (nm ++ rest)]
  simp only [Option.some_bind, Int.toNat_natCast]
  rw [readRawBytes_append nm rest]

/-- Reading back a list of length-prefixed names. -/
theorem readNames_bytes (nms : List (List Nat)) (rest : List Nat)
    (hlen : ∀ nm ∈ nms, (nm.length : Int) < 2 ^ 31) :
    readNames nms.length (namesBytes nms ++ rest) = some (nms, rest) := by
  induction nms with
  | nil => rfl
  | cons nm tl ih =>
    simp only [namesBytes, List.map_cons, List.flatten_cons, List.length_cons,
      List.append_assoc, readNames]
    have htl : (tl.map nameBytes).flatten = namesBytes tl := rfl
    rw [htl, readName_bytes nm (namesBytes tl ++ rest) (hlen nm (by simp))]
    simp only [Option.some_bind]
    rw [ih (fun u hu => hlen u (by simp [hu]))]
    rfl

/-- The 32-bit int encoding always occupies four bytes. -/
theorem i32Bytes_length (v : Int) : (i32Bytes v).length = 4 := by
  simp [i32Bytes, leBytes_length]

/-- The feature-map section occupies four bytes per entry. -/
theorem i32ListBytes_length (vs : List Int) : (i32ListBytes vs).length = 4 * vs.length := by
  induction vs with
  | nil => rfl
  | cons v tl ih =>
    simp only [i32ListBytes, List.map_cons, List.flatten_cons, List.length_append,
      i32Bytes_length, List.length_cons]
    simp only [i32ListBytes] at ih
    omega

/-- The names section occupies name length plus four bytes per name. -/
theorem namesBytes_length (nms : List (List Nat)) :
    (namesBytes nms).length = (nms.map (fun nm => nm.length + 4)).sum := by
  induction nms with
  | nil => rfl
  | cons nm tl ih =>
    simp only [namesBytes, List.map_cons, List.flatten_cons, List.length_append,
      nameBytes, i32Bytes_length, List.sum_cons]
    simp only [namesBytes] at ih
    omega

/-- The declared size_of_header equals the number of header bytes written. -/
theorem headerBytes_length (h : DatasetHeader) :
    (headerBytes h).length = sizeOfHeader h := by
  simp only [headerBytes, sizeOfHeader, List.length_append, leBytes_length,
    i32Bytes_length, i32ListBytes_length, namesBytes_length, boolByte]
  simp

/-- Parsing the header bytes restores every field. -/
theorem parseHeaderFields_headerBytes (h : DatasetHeader)
    (hg : h.globalNumData < 256 ^ 8)
    (hmb1 : -(2 ^ 31) ≤ h.maxBin) (hmb2 : h.maxBin < 2 ^ 31)
    (hnd1 : -(2 ^ 31) ≤ h.numData) (hnd2 : h.numData < 2 ^ 31)
    (hnf1 : -(2 ^ 31) ≤ h.numFeatures) (hnf2 : h.numFeatures < 2 ^ 31)
    (hnt1 : -(2 ^ 31) ≤ h.numTotalFeatures) (hnt2 : h.numTotalFeatures < 2 ^ 31)
    (hmaplen : h.usedFeatureMap.length < 256 ^ 8)
    (hmap : ∀ v ∈ h.usedFeatureMap, -(2 ^ 31) ≤ v ∧ v < 2 ^ 31)
    (hnames : h.featureNames.length = h.numTotalFeatures.toNat)
    (hnamelen : ∀ nm ∈ h.featureNames, (nm.length : Int) < 2 ^ 31) :
    parseHeaderFields (headerBytes h) = some h := by
  have htake : h.featureNames.take h.numTotalFeatures.toNat = h.featureNames := by
    rw [← hnames]
    exact List.take_length _
  unfold parseHeaderFields headerBytes
  rw [htake]
  simp only [List.append_assoc]
  rw [readLE_leBytes 8 h.globalNumData hg]
  simp only [Option.some_bind]
  rw [readBool_boolByte]
  simp only [Option.some_bind]
  rw [readI32_i32Bytes h.maxBin hmb1 hmb2]
  simp only [Option.some_bind]
  rw [readI32_i32Bytes h.numData hnd1 hnd2]
  simp only [Option.some_bind]
  rw [readI32_i32Bytes h.numFeatures hnf1 hnf2]
  simp only [Option.some_bind]
  rw [readI32_i32Bytes h.numTotalFeatures hnt1 hnt2]
  simp only [Option.some_bind]
  rw [readLE_leBytes 8 h.usedFeatureMap.length hmaplen]
  simp only [Option.some_bind]
  rw [readI32List_bytes h.usedFeatureMap (namesBytes h.featureNames) hmap]
  simp only [Option.some_bind]
  rw [← hnames]
  have hnm := readNames_bytes h.featureNames [] hnamelen
  rw [List.append_nil] at hnm
  rw [hnm]
  simp only [Option.some_bind]

/-- Claim C5: saving the dataset header with SaveBinaryFile and loading it
back with LoadDataFromBinFile (single machine, no partition, where
global_num_data_ equals num_data_ at save time) restores global_num_data,
is_enable_sparse, max_bin, num_data, num_features, num_total_features, the
used_feature_map contents and the feature names exactly - the fields are
written and read in one and the same order - and the declared size_of_header
equals the number of header bytes actually written. -/
theorem save_load_header_roundtrip (h : DatasetHeader) (rest : List Nat)
    (hgnd : h.globalNumData = h.numData.toNat)
    (hg : h.globalNumData < 256 ^ 8)
    (hsz : sizeOfHeader h < 256 ^ 8)
    (hmb1 : -(2 ^ 31) ≤ h.maxBin) (hmb2 : h.maxBin < 2 ^ 31)
    (hnd1 : -(2 ^ 31) ≤ h.numData) (hnd2 : h.numData < 2 ^ 31)
    (hnf1 : -(2 ^ 31) ≤ h.numFeatures) (hnf2 : h.numFeatures < 2 ^ 31)
    (hnt1 : -(2 ^ 31) ≤ h.numTotalFeatures) (hnt2 : h.numTotalFeatures < 2 ^ 31)
    (hmaplen : h.usedFeatureMap.length < 256 ^ 8)
    (hmap : ∀ v ∈ h.usedFeatureMap, -(2 ^ 31) ≤ v ∧ v < 2 ^ 31)
    (hnames : h.featureNames.length = h.numTotalFeatures.toNat)
    (hnamelen : ∀ nm ∈ h.featureNames, (nm.length : Int) < 2 ^ 31) :
    loadBinaryHeader (saveBinaryHeader h ++ rest) = some (h, rest) ∧
    (headerBytes h).length = sizeOfHeader h := by
  refine ⟨?_, headerBytes_length h⟩
  unfold loadBinaryHeader saveBinaryHeader
  rw [List.append_assoc, readLE_leBytes 8 (sizeOfHeader h) hsz (headerBytes h ++ rest)]
  simp only [Option.some_bind]
  have hnotshort : ¬ ((headerBytes h ++ rest).length < sizeOfHeader h) := by
    rw [List.length_append, headerBytes_length h]
    omega
  rw [if_neg hnotshort]
  have htake : (headerBytes h ++ rest).take (sizeOfHeader h) = headerBytes h := by
    rw [← headerBytes_length h]
    exact List.take_left _ _
  have hdrop : (headerBytes h ++ rest).drop (sizeOfHeader h) = rest := by
    rw [← headerBytes_length h]
    exact List.drop_left _ _
  rw [htake, hdrop,
    parseHeaderFields_headerBytes h hg hmb1 hmb2 hnd1 hnd2 hnf1 hnf2 hnt1 hnt2
      hmaplen hmap hnames hnamelen]
  simp only [Option.some_bind, Option.some.injEq, Prod.mk.injEq]
  refine ⟨?_, trivial⟩
  rw [← hgnd]

/-- Witness for C5 at a concrete header with two total features, one kept. -/
theorem save_load_header_roundtrip_witness :
    loadBinaryHeader (saveBinaryHeader c5Header ++ [7]) = some (c5Header, [7]) ∧
    (headerBytes c5Header).length = sizeOfHeader c5Header :=
  save_load_header_roundtrip c5Header [7] (by decide) (by decide) (by decide) (by decide)
    (by decide) (by decide) (by decide) (by decide) (by decide) (by decide) (by decide)
    (by decide) (by decide) (by decide) (by decide)


end LightGBM
